import Mathlib

/-!
# Herald — verification of the content-analysis / opposing-viewpoint pipeline
  and the frontend article-list hooks

Shallow embedding of:
* the persisted schema (`articles`, `article_analysis`, `opposing_articles`
  from the SQL migrations), with insert/delete operations following the
  PostgreSQL semantics of the declared constraints (`UNIQUE`, `ON DELETE
  CASCADE`, `ON CONFLICT DO NOTHING` at the matcher's insert);
* the pipeline operations (`analyze`, `generate_queries`, `match`) — absent
  from the visible sources, modelled from the spec (§4.2–§4.4);
* the frontend hooks `useArticles` (`loadMore`, `markRead`, `toggleSave`)
  and `toggleTopic` from `Onboarding.jsx`.

`UUID`s are modelled as `Nat`; SQL `REAL` values as `Rat` (the claims are
about ordering and clamping, not about floating-point rounding).
-/

namespace Herald

abbrev UUID := Nat

/-- A row of `articles` (migration 005): `guid` is nullable, and
`UNIQUE (feed_id, guid)` only bites when `guid` is non-null
(PostgreSQL treats NULLs as distinct). Remaining columns are
irrelevant to the claims and kept as plain data. -/
structure Article where
  id : UUID
  feed_id : UUID
  title : String
  url : String
  guid : Option String
  deriving Repr, DecidableEq

/-- A row of `article_analysis` (migration in `part_004`):
`content_type VARCHAR(20) NOT NULL DEFAULT 'neutral'` (hence a total
`String` here), `bias_score REAL NULL`, `bias_confidence REAL NULL`,
`topic_summary VARCHAR(500) NULL`, `provider VARCHAR(50) NOT NULL`,
and `article_id ... UNIQUE` with `ON DELETE CASCADE`. -/
structure ArticleAnalysis where
  article_id : UUID
  content_type : String
  bias_score : Option Rat
  bias_confidence : Option Rat
  opposing_queries : List String
  topic_summary : Option String
  provider : String
  deriving Repr, DecidableEq

/-- A row of `opposing_articles` (migration 010): both endpoints reference
`articles(id) ON DELETE CASCADE`, `relevance_score REAL NOT NULL`,
`UNIQUE(source_article_id, opposing_article_id)`. No constraint relates
the two endpoint columns to each other. -/
structure OpposingArticleLink where
  source_article_id : UUID
  opposing_article_id : UUID
  relevance_score : Rat
  deriving Repr, DecidableEq

/-- The persisted state: the three tables of the pipeline. -/
structure DB where
  articles : List Article
  analyses : List ArticleAnalysis
  links : List OpposingArticleLink
  deriving Repr, DecidableEq

/-- Insertion into `articles` (migration 005): conflicts on the primary key or on
`UNIQUE (feed_id, guid)`; a NULL `guid` never conflicts. Returns `none`
on a uniqueness violation (the row is not inserted). -/
def insertArticle (db : DB) (a : Article) : Option DB :=
  if db.articles.any (fun b => b.id == a.id) then none
  else if a.guid.isSome &&
      db.articles.any (fun b => b.feed_id == a.feed_id && b.guid == a.guid) then none
  else some { db with articles := db.articles ++ [a] }

/-- The Article Store operation `insertAnalysis` (spec §6:
`insertAnalysis(ArticleAnalysis) -> OK | Conflict`): the
`UNIQUE(article_id)` constraint rejects a second row per article. -/
def insertAnalysis (db : DB) (x : ArticleAnalysis) : Option DB :=
  if db.analyses.any (fun y => y.article_id == x.article_id) then none
  else some { db with analyses := db.analyses ++ [x] }

/-- Link insertion with `ON CONFLICT DO NOTHING` semantics on `opposing_articles`
(spec §6: `insertOpposingLink -> OK | Conflict(ignored)`): a colliding
`(source_article_id, opposing_article_id)` pair leaves the table
unchanged; any non-colliding row — a self-referencing pair included —
is stored as given. -/
def insertOpposingLink (db : DB) (l : OpposingArticleLink) : DB :=
  if db.links.any (fun m =>
      m.source_article_id == l.source_article_id &&
      m.opposing_article_id == l.opposing_article_id) then db
  else { db with links := db.links ++ [l] }

/-- Deletion of an article (`DELETE FROM articles WHERE id = aid`): the `ON DELETE CASCADE`
clauses on `article_analysis.article_id` and on both columns of
`opposing_articles` remove every dependent row. -/
def deleteArticle (db : DB) (aid : UUID) : DB :=
  { articles := db.articles.filter (fun a => a.id != aid)
  , analyses := db.analyses.filter (fun x => x.article_id != aid)
  , links := db.links.filter (fun l =>
      l.source_article_id != aid && l.opposing_article_id != aid) }

/-- Modelled from the spec: the provider's `Classification` result (§4.1) —
the orchestrator and provider adapters are not among the visible sources.
All fields are individually nullable to reflect provider uncertainty. -/
structure Classification where
  content_type : Option String
  bias_score : Option Rat
  bias_confidence : Option Rat
  topic_summary : Option String
  deriving Repr, DecidableEq

/-- Clamp `x` into `[lo, hi]`. -/
def clamp (lo hi x : Rat) : Rat := max lo (min x hi)

/-- Modelled from the spec: orchestrator normalization (§4.2 step 4) —
clamp `bias_score` into `[-1, 1]` and `bias_confidence` into `[0, 1]`,
truncate `topic_summary` to the 500-char storage limit, default a missing
`content_type` to `"neutral"`. -/
def normalizeClassification (provider : String) (aid : UUID)
    (c : Classification) : ArticleAnalysis :=
  { article_id := aid
  , content_type := c.content_type.getD "neutral"
  , bias_score := c.bias_score.map (clamp (-1) 1)
  , bias_confidence := c.bias_confidence.map (clamp 0 1)
  , opposing_queries := []
  , topic_summary := c.topic_summary.map (fun s => s.take 500)
  , provider := provider }

/-- Modelled from the spec: `analyze(article_id)` (§4.2) — the orchestrator
is not among the visible sources. Step 1: an existing analysis row makes the
call an idempotent no-op returning that row. Otherwise the (already
successful) provider output `c` is normalized and inserted under the
uniqueness constraint; a lost race reads back the winner's row (step 5).
The per-article advisory lock of step 2 serializes concurrent calls, so
concurrent invocation is modelled as sequential composition. -/
def analyze (db : DB) (aid : UUID) (provider : String) (c : Classification) :
    DB × ArticleAnalysis :=
  match db.analyses.find? (fun x => x.article_id == aid) with
  | some existing => (db, existing)
  | none =>
    let row := normalizeClassification provider aid c
    match insertAnalysis db row with
    | some db2 => (db2, row)
    | none => (db, ((db.analyses.find? (fun x => x.article_id == aid)).getD row))

/-- Serialized composition of `analyze` calls for one article: each element
of `calls` is the provider identifier and classification one caller would
persist. Returns the final state and each caller's observed record. -/
def analyzeMany (db : DB) (aid : UUID) (calls : List (String × Classification)) :
    DB × List ArticleAnalysis :=
  match calls with
  | [] => (db, [])
  | c :: cs =>
    let r := analyze db aid c.1 c.2
    let rest := analyzeMany r.1 aid cs
    (rest.1, r.2 :: rest.2)

/-- Modelled from the spec: `match(article_id, queries)` (§4.4) — the
Opposing-Article Matcher is not among the visible sources. Candidates from
the opaque search collaborator are filtered: the source article itself is
excluded, pairs already linked for this source are excluded, and only
scores at or above the minimum relevance threshold are kept; the survivors
are ordered by descending score, capped, and persisted with
`INSERT ... ON CONFLICT DO NOTHING` semantics. -/
def matchCandidates (db : DB) (src : UUID) (queries : List String)
    (search : String → List (UUID × Rat)) (threshold : Rat) (cap : Nat) :
    List (UUID × Rat) :=
  ((((queries.map search).flatten).filter (fun c =>
    c.1 != src
    && !(db.links.any (fun m =>
          m.source_article_id == src && m.opposing_article_id == c.1))
    && decide (threshold ≤ c.2))).mergeSort (fun a b => decide (b.2 ≤ a.2))).take cap

/-- Modelled from the spec: persistence step of `match` (§4.4) — each
surviving candidate becomes an `OpposingArticleLink` row, inserted with
conflict-ignoring semantics. -/
def matchOp (db : DB) (src : UUID) (queries : List String)
    (search : String → List (UUID × Rat)) (threshold : Rat) (cap : Nat) : DB :=
  (matchCandidates db src queries search threshold cap).foldl
    (fun d c => insertOpposingLink d
      { source_article_id := src
      , opposing_article_id := c.1
      , relevance_score := c.2 }) db

/-- Invariant of `articles` (migration 005, `UNIQUE (feed_id, guid)`
with NULLs distinct): two distinct rows sharing a feed and a guid can
only do so when that guid is null. -/
def guidUnique (arts : List Article) : Prop :=
  arts.Pairwise (fun a b => a.feed_id = b.feed_id → a.guid = b.guid → a.guid = none)

/-- Invariant of `opposing_articles` (migration 010): no two rows share
the ordered pair `(source_article_id, opposing_article_id)`. -/
def pairUnique (ls : List OpposingArticleLink) : Prop :=
  ls.Pairwise (fun x y =>
    x.source_article_id ≠ y.source_article_id ∨
    x.opposing_article_id ≠ y.opposing_article_id)

/-- No stored link is a self-reference. -/
def noSelfLinks (ls : List OpposingArticleLink) : Prop :=
  ∀ l ∈ ls, l.source_article_id ≠ l.opposing_article_id

/-- Invariant of `article_analysis` (`article_id ... UNIQUE`): at most one
analysis row per article. -/
def analysesUnique (xs : List ArticleAnalysis) : Prop :=
  xs.Pairwise (fun x y => x.article_id ≠ y.article_id)

/-- Score-domain invariant (spec §8): every present `bias_score` lies in
`[-1, 1]` and every present `bias_confidence` in `[0, 1]`. -/
def scoreDomain (xs : List ArticleAnalysis) : Prop :=
  ∀ x ∈ xs,
    (∀ b, x.bias_score = some b → -1 ≤ b ∧ b ≤ 1) ∧
    (∀ b, x.bias_confidence = some b → 0 ≤ b ∧ b ≤ 1)

end Herald

namespace Herald.Frontend

/-- A frontend article record as held by `useArticles` (`useTopics.js`):
besides `id`, only the per-user overlay flags `is_read` / `is_saved` are
touched by the hook; every other field the API returns is opaque to it and
bundled into `rest`. -/
structure FArticle where
  id : Nat
  is_read : Bool
  is_saved : Bool
  rest : String
  deriving Repr, DecidableEq

/-- The hook's `pagination` state. -/
structure Pagination where
  page : Nat
  perPage : Nat
  total : Nat
  hasMore : Bool
  deriving Repr, DecidableEq

/-- The `useArticles` hook state: `articles`, `loading`, `error`,
`pagination`. -/
structure ArticlesState where
  articles : List FArticle
  loading : Bool
  error : Option String
  pagination : Pagination
  deriving Repr, DecidableEq

/-- A `/articles` API response as consumed by `loadMore`. A `per_page` of 0
models a missing/zero field: JS `response.per_page || pagination.perPage`
falls back on any falsy value. -/
structure ArticlesResponse where
  articles : List FArticle
  per_page : Nat
  total : Nat
  has_more : Bool
  deriving Repr, DecidableEq

/-- The operation `loadMore` from `useTopics.js` (the `useArticles` hook): bail out
without a request when a fetch is in flight or `hasMore` is false;
otherwise request the next page, append its articles, and advance the
page number. The second component is the page requested, `none` when no
request was issued. On a failed fetch the list and pagination are
unchanged and `error` is set (the `catch` branch). -/
def loadMore (s : ArticlesState)
    (fetch : Nat → Except String ArticlesResponse) :
    ArticlesState × Option Nat :=
  if s.loading || !s.pagination.hasMore then (s, none)
  else
    let nextPage := s.pagination.page + 1
    match fetch nextPage with
    | .ok r =>
      ({ articles := s.articles ++ r.articles
       , loading := false
       , error := none
       , pagination :=
         { page := nextPage
         , perPage := if r.per_page == 0 then s.pagination.perPage else r.per_page
         , total := r.total
         , hasMore := r.has_more } }, some nextPage)
    | .error e =>
      ({ s with loading := false, error := some e }, some nextPage)

/-- The operation `markRead(articleId, isRead)` from `useTopics.js`, success path: after
the PATCH succeeds, map over the list replacing `is_read` on the article
whose id matches, spreading every other field unchanged. -/
def markRead (s : ArticlesState) (aid : Nat) (isRead : Bool) : ArticlesState :=
  { s with articles := s.articles.map (fun a =>
      if a.id == aid then { a with is_read := isRead } else a) }

/-- The `newSavedState` computed by `toggleSave`: negation of the found
article's `is_saved`; JS `!article?.is_saved` is `true` when no article
matches. -/
def newSavedState (s : ArticlesState) (aid : Nat) : Bool :=
  match s.articles.find? (fun a => a.id == aid) with
  | some a => !a.is_saved
  | none => true

/-- The operation `toggleSave(articleId)` from `useTopics.js`, success path: map over the
list replacing `is_saved` with the precomputed `newSavedState` on the
article whose id matches. -/
def toggleSave (s : ArticlesState) (aid : Nat) : ArticlesState :=
  let ns := newSavedState s aid
  { s with articles := s.articles.map (fun a =>
      if a.id == aid then { a with is_saved := ns } else a) }

/-- The operation `toggleTopic(topicId)` from `Onboarding.jsx`: remove the id when
present (JS `filter(id => id !== topicId)` removes every occurrence),
append it when absent. -/
def toggleTopic (prev : List Nat) (tid : Nat) : List Nat :=
  if prev.contains tid then prev.filter (fun i => i != tid)
  else prev ++ [tid]

end Herald.Frontend

namespace Herald.Frontend

theorem toggleTopic_mem (prev : List Nat) (tid x : Nat) :
    x ∈ toggleTopic prev tid ↔ (if x = tid then tid ∉ prev else x ∈ prev) := by
  unfold toggleTopic
  by_cases hm : tid ∈ prev
  · by_cases hx : x = tid
    · subst hx; simp [hm, List.mem_filter]
    · simp [hm, hx, List.mem_filter]
  · by_cases hx : x = tid
    · subst hx; simp [hm]
    · simp [hm, hx]

theorem toggleTopic_nodup (prev : List Nat) (tid : Nat) (h : prev.Nodup) :
    (toggleTopic prev tid).Nodup := by
  unfold toggleTopic
  by_cases hm : tid ∈ prev
  · have hc : prev.contains tid = true := by simpa using hm
    simp only [hc, if_true]
    exact h.filter _
  · have hc : prev.contains tid = false := by simpa using hm
    simp [hc, List.nodup_append, h, hm]

theorem toggleTopic_foldl_nodup (ops : List Nat) :
    ∀ l : List Nat, l.Nodup → (ops.foldl toggleTopic l).Nodup := by
  induction ops with
  | nil => intro l h; simpa using h
  | cons o os ih => intro l h; exact ih _ (toggleTopic_nodup l o h)

/-- C10: `toggleTopic(topicId)` toggles membership of `topicId` in the
selected-topics list and leaves every other id's membership unchanged, so
applying it twice with the same id restores the original membership; a
selected-topics list grown from the empty initial state by `toggleTopic`
alone never contains a duplicate id. -/
theorem toggleTopic_spec (prev : List Nat) (tid : Nat) :
    (tid ∈ toggleTopic prev tid ↔ tid ∉ prev) ∧
    (∀ x, x ≠ tid → (x ∈ toggleTopic prev tid ↔ x ∈ prev)) ∧
    (∀ x, x ∈ toggleTopic (toggleTopic prev tid) tid ↔ x ∈ prev) ∧
    (prev.Nodup → (toggleTopic prev tid).Nodup) ∧
    (∀ ops : List Nat, (ops.foldl toggleTopic []).Nodup) := by
  refine ⟨?_, ?_, ?_, fun h => toggleTopic_nodup prev tid h,
    fun ops => toggleTopic_foldl_nodup ops [] (by simp)⟩
  · rw [toggleTopic_mem]; simp
  · intro x hx; rw [toggleTopic_mem]; simp [hx]
  · intro x
    rw [toggleTopic_mem]
    by_cases hx : x = tid
    · subst hx; simp only [if_pos rfl]
      rw [toggleTopic_mem]; simp only [if_pos rfl]
      exact not_not
    · simp only [if_neg hx]
      rw [toggleTopic_mem]; simp [hx]

theorem toggleTopic_spec_witness :
    (2 ∈ toggleTopic [1, 2] 3 ↔ 2 ∈ [1, 2]) ∧ (toggleTopic [1, 2] 3).Nodup :=
  ⟨(toggleTopic_spec [1, 2] 3).2.1 2 (by decide),
   (toggleTopic_spec [1, 2] 3).2.2.2.1 (by decide)⟩

/-- C8: `loadMore` is a no-op issuing no request when a fetch is in flight
or `pagination.hasMore` is false; otherwise it requests the next page and,
on a successful fetch, appends the fetched page's articles to the end of
the existing list (existing entries kept in place) and increments the page
number by exactly one. -/
theorem loadMore_spec (s : ArticlesState)
    (fetch : Nat → Except String ArticlesResponse) (r : ArticlesResponse) :
    (s.loading = true ∨ s.pagination.hasMore = false →
      loadMore s fetch = (s, none)) ∧
    (s.loading = false → s.pagination.hasMore = true →
      fetch (s.pagination.page + 1) = Except.ok r →
      (loadMore s fetch).1.articles = s.articles ++ r.articles ∧
      (loadMore s fetch).1.pagination.page = s.pagination.page + 1 ∧
      (loadMore s fetch).2 = some (s.pagination.page + 1)) := by
  constructor
  · intro h
    have hcond : (s.loading || !s.pagination.hasMore) = true := by
      rcases h with h | h <;> simp [h]
    simp [loadMore, hcond]
  · intro h1 h2 h3
    have hcond : (s.loading || !s.pagination.hasMore) = false := by
      simp [h1, h2]
    simp [loadMore, hcond, h3]

theorem loadMore_spec_witness :
    (loadMore ⟨[⟨1, false, false, "a"⟩], false, none, ⟨1, 20, 0, true⟩⟩
        (fun _ => Except.ok ⟨[⟨2, false, false, "b"⟩], 20, 2, false⟩)).1.articles =
      [⟨1, false, false, "a"⟩, ⟨2, false, false, "b"⟩] := by
  have h := (loadMore_spec ⟨[⟨1, false, false, "a"⟩], false, none, ⟨1, 20, 0, true⟩⟩
    (fun _ => Except.ok ⟨[⟨2, false, false, "b"⟩], 20, 2, false⟩)
    ⟨[⟨2, false, false, "b"⟩], 20, 2, false⟩).2 rfl rfl rfl
  simpa using h.1

/-- C9: on success, `markRead(articleId, isRead)` changes only the
`is_read` flag of the article whose id matches and `toggleSave(articleId)`
changes only that article's `is_saved` flag; every article with a
different id, every other field of the target, and the list's length and
order are unchanged. -/
theorem markRead_toggleSave_frame (s : ArticlesState) (aid : Nat) (b : Bool)
    (i : Nat) (a : FArticle) (h : s.articles[i]? = some a) :
    ((markRead s aid b).articles.length = s.articles.length) ∧
    ((toggleSave s aid).articles.length = s.articles.length) ∧
    (a.id ≠ aid →
      (markRead s aid b).articles[i]? = some a ∧
      (toggleSave s aid).articles[i]? = some a) ∧
    (a.id = aid →
      (markRead s aid b).articles[i]? = some { a with is_read := b } ∧
      (toggleSave s aid).articles[i]? =
        some { a with is_saved := newSavedState s aid }) := by
  refine ⟨by simp [markRead], by simp [toggleSave], ?_, ?_⟩
  · intro hid
    constructor
    · simp [markRead, List.getElem?_map, h, hid]
    · simp [toggleSave, List.getElem?_map, h, hid]
  · intro hid
    constructor
    · simp [markRead, List.getElem?_map, h, hid]
    · simp [toggleSave, List.getElem?_map, h, hid]

theorem markRead_toggleSave_frame_witness :
    (markRead ⟨[⟨1, false, false, "x"⟩], false, none, ⟨1, 20, 0, false⟩⟩
        1 true).articles[0]? = some ⟨1, true, false, "x"⟩ ∧
    (toggleSave ⟨[⟨1, false, false, "x"⟩], false, none, ⟨1, 20, 0, false⟩⟩
        1).articles[0]? = some ⟨1, false, true, "x"⟩ := by
  have h := (markRead_toggleSave_frame
    ⟨[⟨1, false, false, "x"⟩], false, none, ⟨1, 20, 0, false⟩⟩
    1 true 0 ⟨1, false, false, "x"⟩ rfl).2.2.2 rfl
  exact ⟨h.1, h.2⟩

end Herald.Frontend

namespace Herald

/-- C7: deleting an article removes exactly its dependent pipeline rows and
nothing else — its analysis row goes away with it, a link goes away when
either endpoint is the deleted article, and rows belonging to other
articles survive unchanged and in their original order (the survivors form
a sublist of the original table). -/
theorem deleteArticle_frame (db : DB) (aid : UUID) :
    (∀ x : ArticleAnalysis,
      x ∈ (deleteArticle db aid).analyses ↔ x ∈ db.analyses ∧ x.article_id ≠ aid) ∧
    (∀ l : OpposingArticleLink,
      l ∈ (deleteArticle db aid).links ↔
        l ∈ db.links ∧ l.source_article_id ≠ aid ∧ l.opposing_article_id ≠ aid) ∧
    (∀ a : Article,
      a ∈ (deleteArticle db aid).articles ↔ a ∈ db.articles ∧ a.id ≠ aid) ∧
    List.Sublist (deleteArticle db aid).analyses db.analyses ∧
    List.Sublist (deleteArticle db aid).links db.links ∧
    List.Sublist (deleteArticle db aid).articles db.articles := by
  refine ⟨?_, ?_, ?_, List.filter_sublist _, List.filter_sublist _,
    List.filter_sublist _⟩
  · intro x; simp [deleteArticle, List.mem_filter]
  · intro l; simp [deleteArticle, List.mem_filter, and_assoc]
  · intro a; simp [deleteArticle, List.mem_filter]

/-- C5: articles are unique per `(feed_id, guid)` when the guid is present
— inserting under the constraint preserves the invariant — while two
articles of the same feed may both carry a null guid, as the concrete
insert shows. -/
theorem insertArticle_guid_unique (db : DB) (a : Article) :
    (guidUnique db.articles →
      ∀ db2, insertArticle db a = some db2 → guidUnique db2.articles) ∧
    (insertArticle ⟨[⟨1, 10, "t", "u", none⟩], [], []⟩ ⟨2, 10, "s", "v", none⟩ =
      some ⟨[⟨1, 10, "t", "u", none⟩, ⟨2, 10, "s", "v", none⟩], [], []⟩) := by
  constructor
  · intro h db2 hins
    unfold insertArticle at hins
    split at hins
    · cases hins
    · split at hins
      · cases hins
      next hguard =>
        cases hins
        show guidUnique (db.articles ++ [a])
        unfold guidUnique at h ⊢
        rw [List.pairwise_append]
        refine ⟨h, List.pairwise_singleton _ _, ?_⟩
        intro b hb x hx
        simp only [List.mem_singleton] at hx
        subst hx
        intro hfeed hguid
        by_contra hbg
        apply hguard
        rw [Bool.and_eq_true]
        constructor
        · cases hg : b.guid with
          | none => exact absurd hg hbg
          | some g => rw [← hguid, hg]; rfl
        · rw [List.any_eq_true]
          exact ⟨b, hb, by simp [hfeed, hguid]⟩
  · rfl

theorem insertArticle_guid_unique_witness :
    guidUnique (DB.mk [⟨1, 10, "t", "u", some "g"⟩] [] []).articles :=
  (insertArticle_guid_unique ⟨[], [], []⟩ ⟨1, 10, "t", "u", some "g"⟩).1
    List.Pairwise.nil ⟨[⟨1, 10, "t", "u", some "g"⟩], [], []⟩ rfl

theorem insertOpposingLink_pairUnique (db : DB) (l : OpposingArticleLink)
    (h : pairUnique db.links) : pairUnique (insertOpposingLink db l).links := by
  unfold insertOpposingLink
  split
  · exact h
  next hany =>
    show pairUnique (db.links ++ [l])
    unfold pairUnique at h ⊢
    rw [List.pairwise_append]
    refine ⟨h, List.pairwise_singleton _ _, ?_⟩
    intro m hm x hx
    simp only [List.mem_singleton] at hx
    subst hx
    by_contra hcon
    push_neg at hcon
    exact hany (List.any_eq_true.mpr ⟨m, hm, by simp [hcon.1, hcon.2]⟩)

theorem insertOpposingLink_noSelf (db : DB) (l : OpposingArticleLink)
    (h : noSelfLinks db.links)
    (hl : l.source_article_id ≠ l.opposing_article_id) :
    noSelfLinks (insertOpposingLink db l).links := by
  unfold insertOpposingLink
  split
  · exact h
  · show noSelfLinks (db.links ++ [l])
    intro m hm
    rcases List.mem_append.mp hm with h1 | h1
    · exact h m h1
    · simp only [List.mem_singleton] at h1; subst h1; exact hl

theorem foldl_insert_preserves {α : Type} (P : List OpposingArticleLink → Prop)
    (g : DB → α → DB) :
    ∀ l : List α, (∀ a ∈ l, ∀ d : DB, P d.links → P (g d a).links) →
      ∀ db : DB, P db.links → P (l.foldl g db).links := by
  intro l
  induction l with
  | nil => intro _ db h; simpa using h
  | cons c cs ih =>
    intro hg db h
    simp only [List.foldl_cons]
    exact ih (fun a ha d hd => hg a (List.mem_cons_of_mem _ ha) d hd) _
      (hg c (List.mem_cons_self _ _) db h)

theorem mem_matchCandidates_ne_src (db : DB) (src : UUID)
    (queries : List String) (search : String → List (UUID × Rat))
    (threshold : Rat) (cap : Nat) (c : UUID × Rat)
    (hc : c ∈ matchCandidates db src queries search threshold cap) :
    c.1 ≠ src := by
  unfold matchCandidates at hc
  have h1 := List.Sublist.mem hc (List.take_sublist _ _)
  rw [List.mem_mergeSort] at h1
  have h2 := (List.mem_filter.mp h1).2
  simp only [Bool.and_eq_true, bne_iff_ne] at h2
  exact h2.1.1

/-- C2: opposing links are unique per ordered pair
`(source_article_id, opposing_article_id)`: a colliding insert is ignored
(`ON CONFLICT DO NOTHING`), so one `match` run — and a second run with the
same queries — preserves pair uniqueness; repeated matching never produces
duplicate link rows. -/
theorem match_pair_unique (db : DB) (src : UUID) (queries : List String)
    (search : String → List (UUID × Rat)) (threshold : Rat) (cap : Nat)
    (h : pairUnique db.links) :
    pairUnique (matchOp db src queries search threshold cap).links ∧
    pairUnique (matchOp (matchOp db src queries search threshold cap)
      src queries search threshold cap).links := by
  have key : ∀ d : DB, pairUnique d.links →
      pairUnique (matchOp d src queries search threshold cap).links := by
    intro d hd
    unfold matchOp
    exact foldl_insert_preserves pairUnique _ _
      (fun a _ d2 hd2 => insertOpposingLink_pairUnique d2 _ hd2) d hd
  exact ⟨key db h, key _ (key db h)⟩

theorem match_pair_unique_witness :
    pairUnique (matchOp ⟨[], [], []⟩ 1 ["q"] (fun _ => [(2, 1)])
      (3 / 10) 5).links :=
  (match_pair_unique ⟨[], [], []⟩ 1 ["q"] (fun _ => [(2, 1)]) (3 / 10) 5
    List.Pairwise.nil).1

/-- C3: no stored opposing link is a self-reference — the Matcher filters
self-pairs before persistence — and this guard is the only protection,
since the storage layer itself accepts a self-referencing pair, as the
concrete insert of the pair `(7, 7)` shows. -/
theorem matcher_no_self_links (db : DB) (src : UUID) (queries : List String)
    (search : String → List (UUID × Rat)) (threshold : Rat) (cap : Nat)
    (h : noSelfLinks db.links) :
    noSelfLinks (matchOp db src queries search threshold cap).links ∧
    insertOpposingLink ⟨[], [], []⟩ ⟨7, 7, 1⟩ = ⟨[], [], [⟨7, 7, 1⟩]⟩ := by
  constructor
  · unfold matchOp
    refine foldl_insert_preserves noSelfLinks _ _ ?_ db h
    intro a ha d hd
    exact insertOpposingLink_noSelf d _ hd
      (Ne.symm (mem_matchCandidates_ne_src db src queries search threshold cap a ha))
  · rfl

theorem matcher_no_self_links_witness :
    noSelfLinks (matchOp ⟨[], [], []⟩ 1 ["q"] (fun _ => [(1, 1), (2, 1)])
      (3 / 10) 5).links :=
  (matcher_no_self_links ⟨[], [], []⟩ 1 ["q"] (fun _ => [(1, 1), (2, 1)])
    (3 / 10) 5 (by simp [noSelfLinks])).1

end Herald

namespace Herald

theorem find?_eq_some_of_filter_eq_singleton {α : Type} (p : α → Bool)
    (r : α) : ∀ l : List α, l.filter p = [r] → l.find? p = some r := by
  intro l
  induction l with
  | nil => intro h; simp at h
  | cons a t ih =>
    intro h
    by_cases hp : p a = true
    · rw [List.filter_cons_of_pos hp] at h
      simp only [List.cons.injEq] at h
      rw [List.find?_cons_of_pos t hp, h.1]
    · rw [List.filter_cons_of_neg hp] at h
      rw [List.find?_cons_of_neg t hp]
      exact ih h

theorem analyze_of_filter_singleton (db : DB) (aid : UUID) (p : String)
    (c : Classification) (r : ArticleAnalysis)
    (h : db.analyses.filter (fun x => x.article_id == aid) = [r]) :
    analyze db aid p c = (db, r) := by
  unfold analyze
  rw [find?_eq_some_of_filter_eq_singleton _ r _ h]

theorem analyzeMany_of_filter_singleton (aid : UUID) (r : ArticleAnalysis) :
    ∀ (calls : List (String × Classification)) (db : DB),
      db.analyses.filter (fun x => x.article_id == aid) = [r] →
      analyzeMany db aid calls = (db, List.replicate calls.length r) := by
  intro calls
  induction calls with
  | nil => intro db h; rfl
  | cons c cs ih =>
    intro db h
    simp only [analyzeMany]
    rw [analyze_of_filter_singleton db aid c.1 c.2 r h]
    rw [ih db h]
    simp [List.replicate_succ]

theorem analyze_fresh (db : DB) (aid : UUID) (p : String) (c : Classification)
    (h : db.analyses.filter (fun x => x.article_id == aid) = []) :
    analyze db aid p c =
      ({ db with analyses := db.analyses ++ [normalizeClassification p aid c] },
       normalizeClassification p aid c) := by
  have hall : ∀ x ∈ db.analyses, ¬((x.article_id == aid) = true) := by
    have := List.filter_eq_nil_iff.mp h
    exact this
  have hfind : db.analyses.find? (fun x => x.article_id == aid) = none :=
    List.find?_eq_none.mpr hall
  have hany : db.analyses.any
      (fun y => y.article_id ==
        (normalizeClassification p aid c).article_id) = false := by
    rw [Bool.eq_false_iff]
    intro hcon
    obtain ⟨y, hy, hyp⟩ := List.any_eq_true.mp hcon
    exact hall y hy hyp
  unfold analyze
  rw [hfind]
  simp only [insertAnalysis, hany, Bool.false_eq_true, if_false]

theorem analyze_analyses_sub (db : DB) (aid : UUID) (p : String)
    (c : Classification) :
    ∀ x ∈ (analyze db aid p c).1.analyses,
      x ∈ db.analyses ∨ x = normalizeClassification p aid c := by
  unfold analyze
  cases hfind : db.analyses.find? (fun x => x.article_id == aid) with
  | some e => intro x hx; exact Or.inl hx
  | none =>
    by_cases hany : db.analyses.any
        (fun y => y.article_id ==
          (normalizeClassification p aid c).article_id) = true
    · simp only [insertAnalysis, hany, if_true]
      intro x hx; exact Or.inl hx
    · simp only [Bool.not_eq_true] at hany
      simp only [insertAnalysis, hany, Bool.false_eq_true, if_false]
      intro x hx
      rcases List.mem_append.mp hx with h1 | h1
      · exact Or.inl h1
      · simp only [List.mem_singleton] at h1; exact Or.inr h1

theorem clamp_le (lo hi x : Rat) (h : lo ≤ hi) :
    lo ≤ clamp lo hi x ∧ clamp lo hi x ≤ hi :=
  ⟨le_max_left _ _, max_le h (min_le_right _ _)⟩

/-- C4: for all persisted analyses, a present `bias_score` lies in
`[-1, 1]` and a present `bias_confidence` in `[0, 1]`: the orchestrator
clamps provider output into those ranges before the insert, and `analyze`
preserves the store-wide score-domain invariant. -/
theorem analyze_score_domain (db : DB) (aid : UUID) (p : String)
    (c : Classification) (h : scoreDomain db.analyses) :
    scoreDomain (analyze db aid p c).1.analyses ∧
    (∀ b, (normalizeClassification p aid c).bias_score = some b →
      -1 ≤ b ∧ b ≤ 1) ∧
    (∀ b, (normalizeClassification p aid c).bias_confidence = some b →
      0 ≤ b ∧ b ≤ 1) := by
  have hrow : (∀ b, (normalizeClassification p aid c).bias_score = some b →
      -1 ≤ b ∧ b ≤ 1) ∧
      (∀ b, (normalizeClassification p aid c).bias_confidence = some b →
        0 ≤ b ∧ b ≤ 1) := by
    constructor
    · intro b hb
      simp only [normalizeClassification, Option.map_eq_some'] at hb
      obtain ⟨y, hy, rfl⟩ := hb
      exact clamp_le (-1) 1 y (by norm_num)
    · intro b hb
      simp only [normalizeClassification, Option.map_eq_some'] at hb
      obtain ⟨y, hy, rfl⟩ := hb
      exact clamp_le 0 1 y (by norm_num)
  refine ⟨?_, hrow.1, hrow.2⟩
  intro x hx
  rcases analyze_analyses_sub db aid p c x hx with h1 | h1
  · exact h x h1
  · subst h1; exact hrow

theorem analyze_score_domain_witness :
    scoreDomain (analyze ⟨[], [], []⟩ 3 "ollama"
      ⟨none, some 2, some 2, none⟩).1.analyses :=
  (analyze_score_domain ⟨[], [], []⟩ 3 "ollama" ⟨none, some 2, some 2, none⟩
    (by simp [scoreDomain])).1

/-- C1: at most one analysis row per article — starting from a state with
no analysis for the article, any positive number of `analyze` calls
(serialized, as the per-article advisory lock prescribes for concurrent
callers) stores exactly one row, every caller observes that same final
stored record, and a further `analyze` call for the already-analyzed
article is an idempotent no-op returning the stored record, not an
error. -/
theorem analyze_at_most_once (db : DB) (aid : UUID)
    (calls : List (String × Classification))
    (h0 : db.analyses.filter (fun x => x.article_id == aid) = [])
    (hne : calls ≠ []) :
    ((analyzeMany db aid calls).1.analyses.filter
      (fun x => x.article_id == aid)).length = 1 ∧
    (∀ r ∈ (analyzeMany db aid calls).2,
      (analyzeMany db aid calls).1.analyses.filter
        (fun x => x.article_id == aid) = [r]) ∧
    (∀ p c, (analyze (analyzeMany db aid calls).1 aid p c).1 =
        (analyzeMany db aid calls).1 ∧
      (analyze (analyzeMany db aid calls).1 aid p c).2 ∈
        (analyzeMany db aid calls).2) := by
  obtain ⟨hd, tl, rfl⟩ : ∃ hd tl, calls = hd :: tl := by
    cases calls with
    | nil => exact absurd rfl hne
    | cons a t => exact ⟨a, t, rfl⟩
  have hstep : analyze db aid hd.1 hd.2 =
      ({ db with analyses :=
          db.analyses ++ [normalizeClassification hd.1 aid hd.2] },
       normalizeClassification hd.1 aid hd.2) :=
    analyze_fresh db aid hd.1 hd.2 h0
  have hfilter : ({ db with analyses :=
      db.analyses ++ [normalizeClassification hd.1 aid hd.2] } : DB).analyses.filter
      (fun x => x.article_id == aid) = [normalizeClassification hd.1 aid hd.2] := by
    show (db.analyses ++ [normalizeClassification hd.1 aid hd.2]).filter
      (fun x => x.article_id == aid) = [normalizeClassification hd.1 aid hd.2]
    rw [List.filter_append, h0]
    simp [normalizeClassification]
  have hmany := analyzeMany_of_filter_singleton aid
    (normalizeClassification hd.1 aid hd.2) tl _ hfilter
  have hall : analyzeMany db aid (hd :: tl) =
      ({ db with analyses :=
          db.analyses ++ [normalizeClassification hd.1 aid hd.2] },
       normalizeClassification hd.1 aid hd.2 ::
         List.replicate tl.length (normalizeClassification hd.1 aid hd.2)) := by
    simp only [analyzeMany]
    rw [hstep, hmany]
  rw [hall]
  refine ⟨?_, ?_, ?_⟩
  · rw [hfilter]; rfl
  · intro r hr
    have hr2 : r = normalizeClassification hd.1 aid hd.2 := by
      rcases List.mem_cons.mp hr with h1 | h1
      · exact h1
      · exact List.eq_of_mem_replicate h1
    subst hr2
    exact hfilter
  · intro p c
    have h2 := analyze_of_filter_singleton _ aid p c
      (normalizeClassification hd.1 aid hd.2) hfilter
    rw [h2]
    exact ⟨rfl, List.mem_cons_self _ _⟩

theorem analyze_at_most_once_witness :
    ((analyzeMany ⟨[], [], []⟩ 5
        [("ollama", ⟨none, none, none, none⟩)]).1.analyses.filter
      (fun x => x.article_id == 5)).length = 1 :=
  (analyze_at_most_once ⟨[], [], []⟩ 5 [("ollama", ⟨none, none, none, none⟩)]
    rfl (by simp)).1

/-- C6: every stored analysis has a content type — for a fresh article the
normalized row is stored and returned, its `content_type` is `"neutral"`
whenever the provider declines to supply one, and every row after the call
either predates it or carries the provider's content type defaulted to
`"neutral"`; the column itself is total (`NOT NULL DEFAULT 'neutral'`),
modelled as a plain `String` field. -/
theorem analyze_content_type_neutral (db : DB) (aid : UUID) (p : String)
    (c : Classification)
    (h0 : db.analyses.filter (fun x => x.article_id == aid) = [])
    (hdecline : c.content_type = none) :
    (analyze db aid p c).2.content_type = "neutral" ∧
    (analyze db aid p c).2 ∈ (analyze db aid p c).1.analyses ∧
    (∀ x ∈ (analyze db aid p c).1.analyses,
      x ∈ db.analyses ∨ x.content_type = c.content_type.getD "neutral") := by
  have hstep := analyze_fresh db aid p c h0
  refine ⟨?_, ?_, ?_⟩
  · rw [hstep]
    show (normalizeClassification p aid c).content_type = "neutral"
    simp [normalizeClassification, hdecline]
  · rw [hstep]
    show normalizeClassification p aid c ∈
      db.analyses ++ [normalizeClassification p aid c]
    simp
  · intro x hx
    rcases analyze_analyses_sub db aid p c x hx with h1 | h1
    · exact Or.inl h1
    · subst h1; exact Or.inr (by simp [normalizeClassification])

theorem analyze_content_type_neutral_witness :
    (analyze ⟨[], [], []⟩ 4 "claude"
      ⟨none, none, none, none⟩).2.content_type = "neutral" :=
  (analyze_content_type_neutral ⟨[], [], []⟩ 4 "claude"
    ⟨none, none, none, none⟩ rfl rfl).1

end Herald
